import Mathlib

/-!
Verification of the Scene Interaction & History Engine of the image_edit
fabric-based editor.

The development shallowly embeds the parts of the source that the checked
properties concern:

* `HistoryManager` (src/fabric-editor/src/modules/HistoryManager.js):
  the snapshot undo/redo stacks (`_doSaveState`, `undo`, `redo`,
  `restoreState`) and the post-restore relinking pass
  (`restoreBubbleTextBindings`).
* `ToolsManager` (the unnamed ToolsManager source file): `setTool`, the
  drag-finalizers (`finalizeShapeWithText`, `finalizeTextBox`,
  `finalizeBubble`), the bound-text sync functions
  (`updateTextPositionForShape`, `updateTextPositionForBubble`), the
  placeholder edit-lifecycle handlers installed by `setupTextBoxEvents`,
  `setupShapeTextEvents`, `setupBubbleTextEvents`, and the cascade-delete
  `removed` handlers installed by `bindShapeTextEvents` /
  `bindBubbleTextEvents`.

Numbers that are JavaScript floats in the source are modelled as exact
rationals; snapshots (JSON strings produced by `canvas.toJSON`) are
modelled by an arbitrary type with decidable equality, and the outcome of
`JSON.parse` + `canvas.loadFromJSON` on a snapshot is modelled by a
boolean success predicate, since serialization itself is performed by the
external graphics surface.
-/

/-! ## History manager state

`HistoryManager` keeps two JS arrays (`undoStack`, `redoStack`, pushed and
popped at the end, shifted at the front), two reentrancy flags and the
configured bound `maxStates` (constructor parameter, default 50).  JS
array index 0 is the list head; `push` appends at the tail, `pop` takes
the tail, `shift` drops the head.  The debounce timer only delays when
`_doSaveState` runs and is cancelled by `undo`/`redo`; the committed
effect is `_doSaveState` itself, which is what we embed. -/
structure HM (α : Type) where
  maxStates : Nat
  undoStack : List α
  redoStack : List α
  isRestoring : Bool
  isSaving : Bool
deriving DecidableEq, Repr

/-- The snapshot the history manager currently designates: the top of
`undoStack` (the entry `undo` leaves restored / `_doSaveState` last pushed). -/
def currentSnapshot {α : Type} (hm : HM α) : Option α :=
  hm.undoStack.getLast?

/-- Model of `_doSaveState`: bail out while restoring or saving; serialize the canvas
(the serialized snapshot is the argument `snap`); drop the commit if it
equals the top of `undoStack`; otherwise push it, clear `redoStack`, and
`shift` the oldest entry when the stack exceeds `maxStates`.  `isSaving`
is set on entry and reset in the `finally` block, so its net value is
unchanged. -/
def _doSaveState {α : Type} [DecidableEq α] (hm : HM α) (snap : α) : HM α :=
  if hm.isRestoring || hm.isSaving then hm
  else if hm.undoStack.getLast? = some snap then hm
  else
    let pushed := hm.undoStack ++ [snap]
    let bounded := if hm.maxStates < pushed.length then pushed.tail else pushed
    { hm with undoStack := bounded, redoStack := [] }

/-- Model of `restoreState`: sets `isRestoring`, parses and loads the snapshot on the
external canvas.  On success the completion handler resets `isRestoring`
to `false`; on a parse or load failure the catch handler logs and resets
`isRestoring` to `false`.  Neither path touches `undoStack` or
`redoStack`.  `ok` models whether `JSON.parse` + `canvas.loadFromJSON`
succeed on the snapshot. -/
def restoreState {α : Type} (ok : α → Bool) (hm : HM α) (snap : α) : HM α :=
  if ok snap then { hm with isRestoring := false }
  else { hm with isRestoring := false }

/-- Model of `undo`: no-op when `undoStack` has at most one entry or a restore is in
flight; otherwise pop the top of `undoStack` onto `redoStack` and restore
the new top.  The `none` branches of the matches are unreachable: the
guard guarantees at least two entries. -/
def undo {α : Type} (ok : α → Bool) (hm : HM α) : HM α :=
  if hm.undoStack.length ≤ 1 || hm.isRestoring then hm
  else
    match hm.undoStack.getLast? with
    | none => hm
    | some current =>
      let hm1 := { hm with undoStack := hm.undoStack.dropLast
                         , redoStack := hm.redoStack ++ [current] }
      match hm1.undoStack.getLast? with
      | none => hm1
      | some previous => restoreState ok hm1 previous

/-- Model of `redo`: no-op when `redoStack` is empty or a restore is in flight;
otherwise pop the top of `redoStack`, push it onto `undoStack` and restore
it. -/
def redo {α : Type} (ok : α → Bool) (hm : HM α) : HM α :=
  if hm.redoStack.length = 0 || hm.isRestoring then hm
  else
    match hm.redoStack.getLast? with
    | none => hm
    | some next =>
      let hm1 := { hm with redoStack := hm.redoStack.dropLast
                         , undoStack := hm.undoStack ++ [next] }
      restoreState ok hm1 next

/-- A sequence of committed saves (each element is the canvas serialization
at the moment of that commit). -/
def commitMany {α : Type} [DecidableEq α] (hm : HM α) (L : List α) : HM α :=
  L.foldl _doSaveState hm

/-- Iterates `n` consecutive `undo` calls (each restore completing before the next
call, as in the event-driven execution model). -/
def undoMany {α : Type} (ok : α → Bool) : Nat → HM α → HM α
  | 0, hm => hm
  | n + 1, hm => undoMany ok n (undo ok hm)

/-! ## Post-restore relinking (`restoreBubbleTextBindings`)

Restored objects are fresh instances; the serialized property list
(`id`, `selectable`, …, `_tailSize`) does not include the live
back-references `_boundBubble`/`_boundShape`, which is why the pass below
re-derives the pairs from `_shapeType` tags and centre proximity.  The
source walks `canvas.forEachObject` (insertion order); objects are
identified here by their position in that order.  `getCenterPoint` is the
external geometry surface; an object's centre is therefore carried as
data.  The source compares `Math.sqrt` of the squared distances with a
strict `<`; since the square root is strictly monotone on nonnegative
reals, that comparison is decided by the squared distances themselves,
which is how it is embedded. -/
structure RObj where
  shapeType : String
  cx : ℚ
  cy : ℚ
  boundBubble : Bool
  boundShape : Bool
deriving DecidableEq, Repr

/-- Test `['bubble', 'rect', 'circle', 'triangle'].includes(obj._shapeType)`. -/
def isBindableShape (o : RObj) : Bool :=
  o.shapeType == "bubble" || o.shapeType == "rect" ||
  o.shapeType == "circle" || o.shapeType == "triangle"

/-- Test `['bubbleText', 'shapeText'].includes(obj._shapeType)`. -/
def isShapeText (o : RObj) : Bool :=
  o.shapeType == "bubbleText" || o.shapeType == "shapeText"

/-- Guard `if (text._boundBubble || text._boundShape) return;`. -/
def alreadyBound (o : RObj) : Bool :=
  o.boundBubble || o.boundShape

/-- Squared centre distance:
`Math.pow(sx - tx, 2) + Math.pow(sy - ty, 2)` (its square root is the
distance the source compares). -/
def dist2 (a b : RObj) : ℚ :=
  (a.cx - b.cx) ^ 2 + (a.cy - b.cy) ^ 2

/-- Pair the objects of a collection with their encounter-order positions. -/
def withIndices : Nat → List RObj → List (Nat × RObj)
  | _, [] => []
  | n, o :: rest => (n, o) :: withIndices (n + 1) rest

/-- One iteration of the `shapeTexts.forEach` scan that maintains
`closestText`/`minDistance`: skip a text that is already bound (the source
marks a text claimed by setting `_boundBubble`/`_boundShape` on it; the
claims made earlier in the same relink pass are carried here in
`claimed`); otherwise keep the strictly closer candidate, so the
first-encountered text wins ties.  `minDistance` starts at `Infinity`,
modelled by the `none` state. -/
def closestStep (shape : RObj) (claimed : List Nat)
    (best : Option (Nat × RObj)) (it : Nat × RObj) : Option (Nat × RObj) :=
  if alreadyBound it.2 || claimed.contains it.1 then best
  else
    match best with
    | none => some it
    | some jt => if dist2 shape it.2 < dist2 shape jt.2 then some it else best

/-- The inner `shapeTexts.forEach` loop of `restoreBubbleTextBindings`. -/
def closestUnclaimed (shape : RObj) (texts : List (Nat × RObj))
    (claimed : List Nat) : Option (Nat × RObj) :=
  texts.foldl (closestStep shape claimed) none

/-- A text is available to a shape when the skip-guard of the inner scan
does not fire: it is not flagged as bound and has not been claimed earlier
in the same relink pass. -/
def availText (claimed : List Nat) (it : Nat × RObj) : Prop :=
  (alreadyBound it.2 || claimed.contains it.1) = false

/-- The outer `bindableShapes.forEach` loop: for each shape in encounter
order, bind the closest unclaimed text if one exists (the source then sets
the lock/controls properties on the text, stores the back-references
`shape._boundText` / `text._boundBubble` or `text._boundShape` — recorded
here both as the emitted pair and as the new entry of `claimed` — and
re-registers the sync/cascade events). -/
def relinkAux (texts : List (Nat × RObj)) :
    List (Nat × RObj) → List Nat → List ((Nat × RObj) × (Nat × RObj))
  | [], _ => []
  | st :: rest, claimed =>
    match closestUnclaimed st.2 texts claimed with
    | none => relinkAux texts rest claimed
    | some jt => (st, jt) :: relinkAux texts rest (jt.1 :: claimed)

/-- The bindable-shape partition of a restored collection. -/
def bindableShapesOf (objs : List RObj) : List (Nat × RObj) :=
  (withIndices 0 objs).filter fun it => isBindableShape it.2

/-- The bound-text partition of a restored collection. -/
def shapeTextsOf (objs : List RObj) : List (Nat × RObj) :=
  (withIndices 0 objs).filter fun it => isShapeText it.2

/-- Model of `restoreBubbleTextBindings`, as the list of (container, bound text)
pairs it establishes, in container encounter order. -/
def restoreBubbleTextBindings (objs : List RObj) :
    List ((Nat × RObj) × (Nat × RObj)) :=
  relinkAux (shapeTextsOf objs) (bindableShapesOf objs) []

/-! ## Cascade delete

`bindShapeTextEvents` / `bindBubbleTextEvents` install a `removed` handler
on the container that removes the bound text if the canvas still contains
it; `setupShapeTextEvents` / `setupBubbleTextEvents` install the mirror
handler on the text.  `canvas.remove` removes a present object and fires
its `removed` event, which may in turn remove the partner.  Objects are
identified by numeric ids; the `partner` map carries the
`_boundText`/`_boundShape`/`_boundBubble` back-references. -/
def removeWithCascade (partner : Nat → Option Nat)
    (canvas : List Nat) (o : Nat) : List Nat :=
  if h : o ∈ canvas then
    match partner o with
    | none => canvas.erase o
    | some p =>
      if p ∈ canvas.erase o then removeWithCascade partner (canvas.erase o) p
      else canvas.erase o
  else canvas
termination_by canvas.length
decreasing_by
  have h1 := List.length_erase_of_mem h
  have h2 := List.length_pos_of_mem h
  omega

/-! ## Bound-text transform sync

`updateTextPositionForShape` / `updateTextPositionForBubble` write the
container's `getCenterPoint` (external geometry; carried as the
`centerX`/`centerY` data of the container) into the text's `left`/`top`
and copy `scaleX`/`scaleY`/`angle`.  Bound texts are created with
`originX: 'center', originY: 'center'`, so their `left`/`top` is their
centre. -/
structure BoundText where
  left : ℚ
  top : ℚ
  scaleX : ℚ
  scaleY : ℚ
  angle : ℚ
deriving DecidableEq, Repr

/-- A rect / circle / triangle container as the sync reads it. -/
structure ContainerShape where
  centerX : ℚ
  centerY : ℚ
  scaleX : ℚ
  scaleY : ℚ
  angle : ℚ
deriving DecidableEq, Repr

/-- A bubble container as the sync reads it.  `_bubbleHeight` and
`_tailSize` are custom serialized properties; they may be absent on a
foreign object, hence the `Option`. -/
structure BubbleShape where
  centerX : ℚ
  centerY : ℚ
  scaleX : ℚ
  scaleY : ℚ
  angle : ℚ
  bubbleHeight : Option ℚ
  tailSize : Option ℚ
deriving DecidableEq, Repr

/-- JavaScript `v || d`: the default replaces both a missing value and a
zero value (`0` is falsy). -/
def jsOr (v : Option ℚ) (d : ℚ) : ℚ :=
  match v with
  | none => d
  | some x => if x = 0 then d else x

/-- JavaScript `!t || t.trim() === ''`: true exactly when the string is
empty or consists of whitespace only (the empty string is falsy, and
`trim` strips leading and trailing whitespace, so trimming yields the
empty string precisely on whitespace-only strings). -/
def jsBlank (s : String) : Bool :=
  s.data.all Char.isWhitespace

/-- Model of `updateTextPositionForShape(shape, textbox)`. -/
def updateTextPositionForShape (shape : ContainerShape) (textbox : BoundText) :
    BoundText :=
  { textbox with
    left := shape.centerX
    top := shape.centerY
    scaleX := shape.scaleX
    scaleY := shape.scaleY
    angle := shape.angle }

/-- Model of `updateTextPositionForBubble(bubble, textbox)`: the text sits at the
bubble's centre, raised by `(tailSize / 2) * bubble.scaleY` so it is
centred in the bubble body above the tail (`tailHeight = tailSize` in
`createBubblePath`). -/
def updateTextPositionForBubble (bubble : BubbleShape) (textbox : BoundText) :
    BoundText :=
  let tailSize := jsOr bubble.tailSize 15
  { textbox with
    left := bubble.centerX
    top := bubble.centerY - tailSize / 2 * bubble.scaleY
    scaleX := bubble.scaleX
    scaleY := bubble.scaleY
    angle := bubble.angle }

/-! ## Pointer-up finalizers -/

/-- The geometry of `this.currentShape` as `finalizeShapeWithText` reads
it: fabric `type` ('rect' / 'triangle' / 'ellipse'), `width`/`height` for
rect and triangle, radii `rx`/`ry` for the ellipse. -/
structure FinShape where
  type : String
  width : ℚ
  height : ℚ
  rx : ℚ
  ry : ℚ
deriving DecidableEq, Repr

/-- Model of the `finalizeShapeWithText` minimum-size enforcement: an ellipse whose
diameter is under 60×40 gets `rx := 50` / `ry := 40` (size 100×80); a rect
or triangle under 60×40 gets `width := 100` / `height := 80`; each
dimension is checked on its own.  (The source then calls
`createBoundTextForShape`.) -/
def finalizeShapeWithText (s : FinShape) : FinShape :=
  if s.type = "ellipse" then
    let s1 := if s.rx * 2 < 60 then { s with rx := 50 } else s
    if s1.ry * 2 < 40 then { s1 with ry := 40 } else s1
  else
    let s1 := if s.width < 60 then { s with width := 100 } else s
    if s1.height < 40 then { s1 with height := 80 } else s1

/-- A free-standing textbox as `finalizeTextBox` and the
`setupTextBoxEvents` handlers read and write it. -/
structure TextObj where
  width : ℚ
  text : String
  fill : String
  fontStyle : String
  isPlaceholder : Bool
deriving DecidableEq, Repr

/-- Model of `finalizeTextBox`: snap a dragged width under 80 to the default 150,
then install the muted italic placeholder content. -/
def finalizeTextBox (tb : TextObj) : TextObj :=
  let tb := if tb.width < 80 then { tb with width := 150 } else tb
  { tb with text := "点击输入文本", fill := "#999999"
          , fontStyle := "italic", isPlaceholder := true }

/-- The bubble's own size state (`_bubbleWidth`/`_bubbleHeight`/`_tailSize`
custom properties) as `finalizeBubble` reads it. -/
structure BubbleFin where
  bubbleWidth : Option ℚ
  bubbleHeight : Option ℚ
  tailSize : Option ℚ
deriving DecidableEq, Repr

/-- Model of `finalizeBubble`: read the size with `|| 150` / `|| 80` fallbacks, snap
a width under 100 to 150 and a height under 60 to 80 (each dimension on
its own), and store the result (the source also rebuilds the outline path
from these dimensions and then calls `createBoundTextForBubble`). -/
def finalizeBubble (b : BubbleFin) : BubbleFin :=
  let width := jsOr b.bubbleWidth 150
  let height := jsOr b.bubbleHeight 80
  let width := if width < 100 then 150 else width
  let height := if height < 60 then 80 else height
  { b with bubbleWidth := some width, bubbleHeight := some height }

/-! ## Placeholder edit lifecycle

The handlers below are the closures the source installs with
`textbox.on('editing:entered' | 'editing:exited', …)`.  Only the fields a
handler touches are modelled (`canvas.renderAll`, the history commit and
the container re-selection are external side effects).  The default text
colour is `textShapeDefaults.textColor = '#000000'`.  The emptiness test
`!textbox.text || textbox.text.trim() === ''` is `jsBlank`. -/

/-- Free-text `editing:entered` handler from `setupTextBoxEvents`. -/
def textBoxEditingEntered (tb : TextObj) : TextObj :=
  if tb.isPlaceholder then
    { tb with text := "", fill := "#000000"
            , fontStyle := "normal", isPlaceholder := false }
  else tb

/-- Free-text `editing:exited` handler from `setupTextBoxEvents`. -/
def textBoxEditingExited (tb : TextObj) : TextObj :=
  if jsBlank tb.text then
    { tb with text := "点击输入文本", fill := "#999999"
            , fontStyle := "italic", isPlaceholder := true }
  else tb

/-- Bubble-text `editing:entered` handler from `setupBubbleTextEvents`. -/
def bubbleTextEditingEntered (tb : TextObj) : TextObj :=
  if tb.isPlaceholder then
    { tb with text := "", fill := "#000000"
            , fontStyle := "normal", isPlaceholder := false }
  else tb

/-- Bubble-text `editing:exited` handler from `setupBubbleTextEvents` (the
source additionally commits history and re-selects the bound bubble). -/
def bubbleTextEditingExited (tb : TextObj) : TextObj :=
  if jsBlank tb.text then
    { tb with text := "点击输入文本", fill := "#999999"
            , fontStyle := "italic", isPlaceholder := true }
  else tb

/-- Shape-bound-text `editing:exited` handler from `setupShapeTextEvents`:
it re-renders, commits history and re-selects the bound shape, but does
not touch the text's content, style or placeholder flag; and
`setupShapeTextEvents` installs no `editing:entered` handler at all. -/
def shapeTextEditingExited (tb : TextObj) : TextObj :=
  tb

/-- A restored textbox as `setupRestoredTextBox` (HistoryManager) reads and
writes it: the placeholder fields plus the selection-border stroke. -/
structure RestoredTextBox where
  text : String
  fill : String
  fontStyle : String
  isPlaceholder : Bool
  stroke : String
  strokeWidth : ℚ
deriving DecidableEq, Repr

/-- The `editing:entered` handler installed by `setupRestoredTextBox` on every
restored non-bubble textbox (free text and shape-bound text alike). -/
def restoredTextBoxEditingEntered (tb : RestoredTextBox) : RestoredTextBox :=
  let tb :=
    if tb.isPlaceholder then
      { tb with text := "", fill := "#000000"
              , fontStyle := "normal", isPlaceholder := false }
    else tb
  { tb with stroke := "#4f46e5", strokeWidth := 1 }

/-- The `editing:exited` handler installed by `setupRestoredTextBox`;
`isActive` says whether the textbox is still the canvas's active object. -/
def restoredTextBoxEditingExited (isActive : Bool) (tb : RestoredTextBox) :
    RestoredTextBox :=
  let tb :=
    if jsBlank tb.text then
      { tb with text := "点击输入文本", fill := "#999999"
              , fontStyle := "italic", isPlaceholder := true }
    else tb
  if isActive then tb
  else { tb with stroke := "transparent", strokeWidth := 0 }

/-! ## `setTool` -/

/-- The tool/canvas interaction state `setTool` mutates: the current tool
name, the canvas drawing/selection modes and cursors, and whether an
active selection exists (`discardActiveObject` clears it);
`activeIsImage` records whether that selection is an image
(`cropManager.isImageObject`). -/
structure ToolsState where
  currentTool : String
  isDrawingMode : Bool
  selection : Bool
  defaultCursor : String
  hoverCursor : String
  hasActiveObject : Bool
  activeIsImage : Bool
deriving DecidableEq, Repr

/-- The tool names `setTool`'s switch has a case for. -/
def acceptedToolNames : List String :=
  ["select", "hand", "pencil", "eraser", "rect", "circle", "triangle",
   "line", "arrow", "text", "bubble", "image", "crop"]

/-- The unconditional prologue of `setTool`: store the tool name and reset
the canvas interaction state. -/
def resetToolState (st : ToolsState) (name : String) : ToolsState :=
  { st with currentTool := name, isDrawingMode := false, selection := true
          , defaultCursor := "default", hoverCursor := "move" }

/-- Effect of the source's recursive `this.setTool('select')` call: the
prologue runs with 'select', the 'select' case only re-enables per-object
selectability on the external canvas, and the trailing
`discardActiveObject` is skipped for 'select'. -/
def setToolSelectOnly (st : ToolsState) : ToolsState :=
  resetToolState st "select"

/-- Model of `setTool(toolName)`.  The second component is the toast surfaced to the
user (`editor.showToast(..., 'error')`), the only error channel the
function has; `none` means no error was surfaced.  An unrecognised name
falls through the switch with no matching case and reaches the trailing
`discardActiveObject`. -/
def setTool (st : ToolsState) (name : String) : ToolsState × Option String :=
  let st1 := resetToolState st name
  if name = "select" then (st1, none)
  else if name = "hand" then
    ({ st1 with selection := false, defaultCursor := "grab"
              , hasActiveObject := false }, none)
  else if name = "pencil" ∨ name = "eraser" then
    ({ st1 with isDrawingMode := true, hasActiveObject := false }, none)
  else if name = "rect" ∨ name = "circle" ∨ name = "triangle" ∨
          name = "line" ∨ name = "arrow" ∨ name = "text" ∨ name = "bubble" then
    ({ st1 with selection := false, defaultCursor := "crosshair"
              , hasActiveObject := false }, none)
  else if name = "image" then
    ({ setToolSelectOnly st1 with hasActiveObject := false }, none)
  else if name = "crop" then
    if st1.hasActiveObject && st1.activeIsImage then (st1, none)
    else (setToolSelectOnly st1, some "请先选择一张图片再进行裁剪")
  else ({ st1 with hasActiveObject := false }, none)

/-- Concrete bound pairing used by the cascade-delete witnesses: objects 1
and 2 are a container/bound-text pair, every other object is unpaired. -/
def pairPartner : Nat → Option Nat :=
  fun n => if n = 1 then some 2 else if n = 2 then some 1 else none

/-- A concrete restored collection used by the relink witness: a rect with
a nearby shape text and a bubble with a nearby bubble text, all freshly
deserialized (no binding flags). -/
def relinkWitnessObjs : List RObj :=
  [⟨"rect", 0, 0, false, false⟩, ⟨"shapeText", 1, 0, false, false⟩,
   ⟨"bubble", 100, 0, false, false⟩, ⟨"bubbleText", 99, 0, false, false⟩]

/-! # Theorems -/

/-- C6: the sync operation writes the container's geometric centre into the
bound text's centre (`left`/`top`, origin at centre) — for bubbles raised
by half the tail height scaled by the bubble's vertical scale — and
copies the container's scale and rotation onto the text; running the sync
twice with an unchanged container produces the same text transform as
running it once. -/
theorem sync_sets_center_scale_angle_and_is_idempotent
    (shape : ContainerShape) (bubble : BubbleShape) (tb : BoundText) :
    (updateTextPositionForShape shape tb).left = shape.centerX ∧
    (updateTextPositionForShape shape tb).top = shape.centerY ∧
    (updateTextPositionForShape shape tb).scaleX = shape.scaleX ∧
    (updateTextPositionForShape shape tb).scaleY = shape.scaleY ∧
    (updateTextPositionForShape shape tb).angle = shape.angle ∧
    updateTextPositionForShape shape (updateTextPositionForShape shape tb) =
      updateTextPositionForShape shape tb ∧
    (updateTextPositionForBubble bubble tb).left = bubble.centerX ∧
    (updateTextPositionForBubble bubble tb).top =
      bubble.centerY - jsOr bubble.tailSize 15 / 2 * bubble.scaleY ∧
    (updateTextPositionForBubble bubble tb).scaleX = bubble.scaleX ∧
    (updateTextPositionForBubble bubble tb).scaleY = bubble.scaleY ∧
    (updateTextPositionForBubble bubble tb).angle = bubble.angle ∧
    updateTextPositionForBubble bubble (updateTextPositionForBubble bubble tb) =
      updateTextPositionForBubble bubble tb :=
  ⟨rfl, rfl, rfl, rfl, rfl, rfl, rfl, rfl, rfl, rfl, rfl, rfl⟩

/-- C7 counterexample: a rect dragged to 30×70 is below the minimum
(width < 60), yet the finalizer does not snap it to the 100×80 default
size — only the deficient width is snapped and the height 70 is kept. -/
theorem finalize_snaps_only_deficient_dimension :
    ((30 : ℚ) < 60 ∨ (70 : ℚ) < 40) ∧
    ¬ ((finalizeShapeWithText ⟨"rect", 30, 70, 0, 0⟩).width = 100 ∧
       (finalizeShapeWithText ⟨"rect", 30, 70, 0, 0⟩).height = 80) := by
  refine ⟨Or.inl (by norm_num), ?_⟩
  intro h
  have := h.2
  simp [finalizeShapeWithText] at this
  norm_num at this

/-- C7 (amended): each deficient dimension is snapped on its own — for a
rect/triangle width < 60 becomes 100 and height < 40 becomes 80, for an
ellipse a diameter `2·rx < 60` gives `rx = 50` and `2·ry < 40` gives
`ry = 40`; a textbox width < 80 becomes 150; a bubble width < 100 becomes
150 and height < 60 becomes 80 (after the `|| 150` / `|| 80` fallbacks);
a dimension at or above its minimum keeps its dragged value, and no shape
is discarded. -/
theorem finalize_min_size_characterization
    (s : FinShape) (tb : TextObj) (b : BubbleFin) :
    (s.type ≠ "ellipse" →
      (finalizeShapeWithText s).width = (if s.width < 60 then 100 else s.width) ∧
      (finalizeShapeWithText s).height = (if s.height < 40 then 80 else s.height)) ∧
    (s.type = "ellipse" →
      (finalizeShapeWithText s).rx = (if s.rx * 2 < 60 then 50 else s.rx) ∧
      (finalizeShapeWithText s).ry = (if s.ry * 2 < 40 then 40 else s.ry)) ∧
    (finalizeTextBox tb).width = (if tb.width < 80 then 150 else tb.width) ∧
    (finalizeBubble b).bubbleWidth =
      some (if jsOr b.bubbleWidth 150 < 100 then 150 else jsOr b.bubbleWidth 150) ∧
    (finalizeBubble b).bubbleHeight =
      some (if jsOr b.bubbleHeight 80 < 60 then 80 else jsOr b.bubbleHeight 80) := by
  refine ⟨fun h => ?_, fun h => ?_, ?_, ?_, ?_⟩
  · simp only [finalizeShapeWithText, if_neg h]
    split_ifs <;> simp_all
  · simp only [finalizeShapeWithText, if_pos h]
    split_ifs <;> simp_all
  · simp only [finalizeTextBox]
    split_ifs <;> simp_all
  · rfl
  · rfl

/-- C7 witness: the amended characterization evaluated on a rect dragged to
30×70, a textbox dragged to width 60, and a bubble dragged to 50×70. -/
theorem finalize_min_size_characterization_witness :
    ((⟨"rect", 30, 70, 0, 0⟩ : FinShape).type ≠ "ellipse") ∧
    ((finalizeShapeWithText ⟨"rect", 30, 70, 0, 0⟩).width = 100 ∧
     (finalizeShapeWithText ⟨"rect", 30, 70, 0, 0⟩).height = 70) := by
  have h := finalize_min_size_characterization ⟨"rect", 30, 70, 0, 0⟩
      ⟨60, "", "#000000", "normal", false⟩ ⟨some 50, some 70, some 15⟩
  refine ⟨by decide, ?_⟩
  have h2 := h.1 (by decide)
  simpa using h2

/-- C8 counterexample: a freshly created shape-bound text (created with
empty content and `_isPlaceholder: false`) whose edit mode is exited with
empty content: the `setupShapeTextEvents` exit handler restores neither
the placeholder content, nor the muted style, nor the placeholder flag —
the text stays empty and non-placeholder. -/
theorem shape_text_exit_keeps_empty_text :
    jsBlank (⟨100, "", "#000000", "normal", false⟩ : TextObj).text = true ∧
    shapeTextEditingExited ⟨100, "", "#000000", "normal", false⟩ =
      ⟨100, "", "#000000", "normal", false⟩ ∧
    ¬ ((shapeTextEditingExited ⟨100, "", "#000000", "normal", false⟩).isPlaceholder = true ∧
       (shapeTextEditingExited ⟨100, "", "#000000", "normal", false⟩).text = "点击输入文本" ∧
       (shapeTextEditingExited ⟨100, "", "#000000", "normal", false⟩).fill = "#999999") := by
  refine ⟨rfl, rfl, ?_⟩
  intro h
  exact absurd h.1 (by decide)

/-- C8 (amended): the placeholder edit lifecycle holds for free text and
bubble-bound text (entering edit with `placeholder=true` clears content
and flips to normal style; exiting with empty content restores the muted
placeholder), and holds for any non-bubble textbox restored from a
snapshot via `setupRestoredTextBox`; a shape-bound text as created has no
placeholder lifecycle: its exit handler leaves content, style and flag
untouched, and no enter handler is installed. -/
theorem placeholder_edit_lifecycle (tb : TextObj) (rb : RestoredTextBox) :
    (tb.isPlaceholder = true →
      (textBoxEditingEntered tb).text = "" ∧
      (textBoxEditingEntered tb).fill = "#000000" ∧
      (textBoxEditingEntered tb).fontStyle = "normal" ∧
      (textBoxEditingEntered tb).isPlaceholder = false) ∧
    (jsBlank tb.text = true →
      textBoxEditingExited tb =
        { tb with text := "点击输入文本", fill := "#999999"
                , fontStyle := "italic", isPlaceholder := true }) ∧
    (tb.isPlaceholder = true →
      (bubbleTextEditingEntered tb).text = "" ∧
      (bubbleTextEditingEntered tb).fill = "#000000" ∧
      (bubbleTextEditingEntered tb).fontStyle = "normal" ∧
      (bubbleTextEditingEntered tb).isPlaceholder = false) ∧
    (jsBlank tb.text = true →
      bubbleTextEditingExited tb =
        { tb with text := "点击输入文本", fill := "#999999"
                , fontStyle := "italic", isPlaceholder := true }) ∧
    shapeTextEditingExited tb = tb ∧
    (rb.isPlaceholder = true →
      (restoredTextBoxEditingEntered rb).text = "" ∧
      (restoredTextBoxEditingEntered rb).fill = "#000000" ∧
      (restoredTextBoxEditingEntered rb).fontStyle = "normal" ∧
      (restoredTextBoxEditingEntered rb).isPlaceholder = false) ∧
    (jsBlank rb.text = true →
      (restoredTextBoxEditingExited false rb).text = "点击输入文本" ∧
      (restoredTextBoxEditingExited false rb).fill = "#999999" ∧
      (restoredTextBoxEditingExited false rb).fontStyle = "italic" ∧
      (restoredTextBoxEditingExited false rb).isPlaceholder = true) := by
  refine ⟨fun h => ?_, fun h => ?_, fun h => ?_, fun h => ?_, rfl,
          fun h => ?_, fun h => ?_⟩ <;>
    simp [textBoxEditingEntered, textBoxEditingExited, bubbleTextEditingEntered,
      bubbleTextEditingExited, restoredTextBoxEditingEntered,
      restoredTextBoxEditingExited, h]

/-- C8 witness: the amended lifecycle evaluated on an empty placeholder
text object and an empty placeholder restored textbox. -/
theorem placeholder_edit_lifecycle_witness :
    ((⟨150, "", "#999999", "italic", true⟩ : TextObj).isPlaceholder = true) ∧
    jsBlank (⟨150, "", "#999999", "italic", true⟩ : TextObj).text = true ∧
    ((⟨"", "#999999", "italic", true, "transparent", 0⟩ : RestoredTextBox).isPlaceholder = true) ∧
    (textBoxEditingEntered ⟨150, "", "#999999", "italic", true⟩).text = "" ∧
    textBoxEditingExited ⟨150, "", "#999999", "italic", true⟩ =
      ⟨150, "点击输入文本", "#999999", "italic", true⟩ ∧
    (bubbleTextEditingEntered ⟨150, "", "#999999", "italic", true⟩).isPlaceholder = false ∧
    bubbleTextEditingExited ⟨150, "", "#999999", "italic", true⟩ =
      ⟨150, "点击输入文本", "#999999", "italic", true⟩ ∧
    shapeTextEditingExited ⟨150, "", "#999999", "italic", true⟩ =
      ⟨150, "", "#999999", "italic", true⟩ ∧
    (restoredTextBoxEditingEntered ⟨"", "#999999", "italic", true, "transparent", 0⟩).text = "" ∧
    (restoredTextBoxEditingExited false ⟨"", "#999999", "italic", true, "transparent", 0⟩).text =
      "点击输入文本" := by
  have h := placeholder_edit_lifecycle ⟨150, "", "#999999", "italic", true⟩
      ⟨"", "#999999", "italic", true, "transparent", 0⟩
  exact ⟨rfl, by decide, rfl, (h.1 rfl).1, h.2.1 (by decide),
    (h.2.2.1 rfl).2.2.2, h.2.2.2.1 (by decide), h.2.2.2.2.1,
    (h.2.2.2.2.2.1 rfl).1, (h.2.2.2.2.2.2 (by decide)).1⟩

/-- C9 counterexample: `setTool('bogus')` with an unknown name is not
rejected — `currentTool` becomes `'bogus'` (the tool state changes) and
no error is surfaced to the caller. -/
theorem setTool_accepts_unknown_name :
    "bogus" ∉ acceptedToolNames ∧
    (setTool ⟨"select", false, true, "default", "move", false, false⟩ "bogus").1.currentTool
      ≠ ("select" : String) ∧
    (setTool ⟨"select", false, true, "default", "move", false, false⟩ "bogus").2 = none := by
  refine ⟨by decide, by decide, rfl⟩

/-- C9 (amended): a name with no switch case is not rejected: `setTool`
stores it as `currentTool`, resets the canvas interaction state (drawing
mode off, selection on, default cursors), discards the active selection,
and surfaces no error. -/
theorem setTool_unknown_name_behavior (st : ToolsState) (name : String)
    (h : name ∉ acceptedToolNames) :
    setTool st name =
      ({ st with currentTool := name, isDrawingMode := false, selection := true
               , defaultCursor := "default", hoverCursor := "move"
               , hasActiveObject := false }, none) := by
  simp only [acceptedToolNames, List.mem_cons, List.not_mem_nil, or_false, not_or] at h
  obtain ⟨h1, h2, h3, h4, h5, h6, h7, h8, h9, h10, h11, h12, h13⟩ := h
  simp [setTool, resetToolState, h1, h2, h3, h4, h5, h6, h7, h8, h9, h10, h11, h12, h13]

/-- C9 witness: the amended behaviour evaluated at `setTool('bogus')` from
a drawing-mode state with an active image selection. -/
theorem setTool_unknown_name_behavior_witness :
    "bogus" ∉ acceptedToolNames ∧
    setTool ⟨"pencil", true, false, "crosshair", "move", true, true⟩ "bogus" =
      (⟨"bogus", false, true, "default", "move", false, true⟩, none) :=
  ⟨by decide, setTool_unknown_name_behavior ⟨"pencil", true, false, "crosshair", "move", true, true⟩
      "bogus" (by decide)⟩

/-- Lemma: `restoreState` resets the restoring flag and changes nothing else,
whether or not the parse/load succeeds. -/
theorem restoreState_eq {α : Type} (ok : α → Bool) (hm : HM α) (s : α) :
    restoreState ok hm s = { hm with isRestoring := false } := by
  unfold restoreState
  split <;> rfl

/-- C3 counterexample: `undo` on stacks `undoStack = [0, 1]`,
`redoStack = []` where restoring snapshot `0` fails (`ok 0 = false`): the
restore target is `0` and fails, yet `undoStack` is no longer `[0, 1]`
and `redoStack` is no longer `[]` — the stacks were mutated before the
restore was attempted and are not rolled back. -/
theorem failed_restore_mutates_stacks :
    (⟨2, [0, 1], [], false, false⟩ : HM ℕ).undoStack.dropLast.getLast? = some 0 ∧
    (fun n : ℕ => n != 0) 0 = false ∧
    ¬ ((undo (fun n : ℕ => n != 0) ⟨2, [0, 1], [], false, false⟩).undoStack = [0, 1] ∧
       (undo (fun n : ℕ => n != 0) ⟨2, [0, 1], [], false, false⟩).redoStack = ([] : List ℕ)) ∧
    (undo (fun n : ℕ => n != 0) ⟨2, [0, 1], [], false, false⟩).isRestoring = false := by
  refine ⟨rfl, rfl, ?_, rfl⟩
  intro h
  exact absurd h.1 (by decide)

/-- C3 (amended): when the restore inside `undo` (resp. `redo`) fails with
a serialization error, the restoring flag is false once the failure is
handled, but the stacks are not the same as before: `undo` has already
moved the top of `undoStack` onto `redoStack` (resp. `redo` has moved the
top of `redoStack` onto `undoStack`) before attempting the restore, and
the failed `restoreState` itself changes neither stack. -/
theorem failed_restore_stack_characterization {α : Type} [DecidableEq α]
    (ok : α → Bool) (hm : HM α) (hr : hm.isRestoring = false) :
    (∀ current previous,
      hm.undoStack.getLast? = some current →
      2 ≤ hm.undoStack.length →
      hm.undoStack.dropLast.getLast? = some previous →
      ok previous = false →
      (undo ok hm).undoStack = hm.undoStack.dropLast ∧
      (undo ok hm).redoStack = hm.redoStack ++ [current] ∧
      (undo ok hm).isRestoring = false) ∧
    (∀ next,
      hm.redoStack.getLast? = some next →
      ok next = false →
      (redo ok hm).undoStack = hm.undoStack ++ [next] ∧
      (redo ok hm).redoStack = hm.redoStack.dropLast ∧
      (redo ok hm).isRestoring = false) ∧
    (∀ snap,
      (restoreState ok hm snap).undoStack = hm.undoStack ∧
      (restoreState ok hm snap).redoStack = hm.redoStack ∧
      (restoreState ok hm snap).isRestoring = false) := by
  refine ⟨fun current previous hcur hlen hprev hok => ?_,
          fun next hnext hok => ?_, fun snap => ?_⟩
  · have hguard : (hm.undoStack.length ≤ 1 || hm.isRestoring) = false := by
      rw [hr]
      simp
      omega
    simp only [undo, hguard, Bool.false_eq_true, if_false, hcur, hprev,
      restoreState_eq]
    exact ⟨trivial, trivial, trivial⟩
  · have hne : hm.redoStack ≠ [] := by
      intro h
      rw [h] at hnext
      exact absurd hnext (by simp)
    have hguard : (hm.redoStack.length = 0 ∨ hm.isRestoring = true) = False := by
      simp [hr, List.length_eq_zero, hne]
    simp only [redo, hnext, restoreState_eq]
    rw [if_neg]
    · exact ⟨rfl, rfl, rfl⟩
    · simp [hr, List.length_eq_zero, hne]
  · rw [restoreState_eq]
    exact ⟨rfl, rfl, rfl⟩

/-- C3 witness: the amended characterization evaluated on
`undoStack = [0, 1]` with failing snapshot `0`, and `redoStack = [0]`
with the same failing predicate. -/
theorem failed_restore_stack_characterization_witness :
    ((⟨2, [0, 1], [0], false, false⟩ : HM ℕ).isRestoring = false) ∧
    ((undo (fun n : ℕ => n != 0) ⟨2, [0, 1], [0], false, false⟩).undoStack = [0] ∧
     (undo (fun n : ℕ => n != 0) ⟨2, [0, 1], [0], false, false⟩).redoStack = [0, 1] ∧
     (undo (fun n : ℕ => n != 0) ⟨2, [0, 1], [0], false, false⟩).isRestoring = false) ∧
    ((redo (fun n : ℕ => n != 0) ⟨2, [1, 2], [0], false, false⟩).undoStack = [1, 2, 0] ∧
     (redo (fun n : ℕ => n != 0) ⟨2, [1, 2], [0], false, false⟩).redoStack = [] ∧
     (redo (fun n : ℕ => n != 0) ⟨2, [1, 2], [0], false, false⟩).isRestoring = false) := by
  have h1 := failed_restore_stack_characterization (fun n : ℕ => n != 0)
      (⟨2, [0, 1], [0], false, false⟩ : HM ℕ) rfl
  have h2 := failed_restore_stack_characterization (fun n : ℕ => n != 0)
      (⟨2, [1, 2], [0], false, false⟩ : HM ℕ) rfl
  exact ⟨rfl, h1.1 1 0 rfl (by decide) rfl rfl, h2.2.1 0 rfl rfl⟩

/-- C5 counterexample: with the configured bound `maxStates = 2`, starting
from the sole floor entry `0` (index 0, the initial document state), two
further distinct commits overflow the stack and `shift()` evicts the
floor entry itself: `0` is no longer anywhere in `undoStack`. -/
theorem floor_entry_evicted_at_capacity :
    (⟨2, [0], [], false, false⟩ : HM ℕ).undoStack.head? = some 0 ∧
    (commitMany (⟨2, [0], [], false, false⟩ : HM ℕ) [1, 2]).undoStack.length ≤ 2 ∧
    0 ∉ (commitMany (⟨2, [0], [], false, false⟩ : HM ℕ) [1, 2]).undoStack := by
  refine ⟨rfl, by decide, by decide⟩

/-- C5 (amended): a commit never brings `undoStack` above `maxStates`; when
a pushed commit overflows the bound, exactly the oldest entry — index 0,
which is also the floor/initial entry, which is not protected — is
evicted; below the bound the push preserves all existing entries. -/
theorem undoStack_bounded_oldest_evicted {α : Type} [DecidableEq α]
    (hm : HM α) (s : α) (hr : hm.isRestoring = false) (hs : hm.isSaving = false) :
    (hm.undoStack.length ≤ hm.maxStates →
      (_doSaveState hm s).undoStack.length ≤ hm.maxStates) ∧
    (hm.undoStack.getLast? ≠ some s → hm.undoStack.length = hm.maxStates →
      (_doSaveState hm s).undoStack = (hm.undoStack ++ [s]).tail) ∧
    (hm.undoStack.getLast? ≠ some s → hm.undoStack.length < hm.maxStates →
      (_doSaveState hm s).undoStack = hm.undoStack ++ [s]) := by
  refine ⟨fun hb => ?_, fun hd heq => ?_, fun hd hlt => ?_⟩
  · simp only [_doSaveState, hr, hs, Bool.or_self, Bool.false_eq_true, if_false]
    split_ifs with h1 h2 <;> simp_all [List.length_tail]
  · simp only [_doSaveState, hr, hs, Bool.or_self, Bool.false_eq_true, if_false,
      if_neg hd]
    rw [if_pos]
    simp [hm.undoStack.length_append, hd, heq]
  · simp only [_doSaveState, hr, hs, Bool.or_self, Bool.false_eq_true, if_false,
      if_neg hd]
    rw [if_neg]
    simp
    omega

/-- C5 witness: the amended bound/eviction behaviour evaluated at
`maxStates = 2` on a full stack `[5, 6]` (eviction drops the oldest entry
5) and on the stack `[5]` below capacity. -/
theorem undoStack_bounded_oldest_evicted_witness :
    ((⟨2, [5, 6], [], false, false⟩ : HM ℕ).undoStack.length ≤ 2 ∧
     (_doSaveState (⟨2, [5, 6], [], false, false⟩ : HM ℕ) 7).undoStack.length ≤ 2) ∧
    (_doSaveState (⟨2, [5, 6], [], false, false⟩ : HM ℕ) 7).undoStack = [6, 7] ∧
    (_doSaveState (⟨2, [5], [], false, false⟩ : HM ℕ) 7).undoStack = [5, 7] := by
  have h1 := undoStack_bounded_oldest_evicted (⟨2, [5, 6], [], false, false⟩ : HM ℕ) 7 rfl rfl
  have h2 := undoStack_bounded_oldest_evicted (⟨2, [5], [], false, false⟩ : HM ℕ) 7 rfl rfl
  exact ⟨⟨by decide, h1.1 (by decide)⟩, h1.2.1 (by decide) rfl, h2.2.2 (by decide) (by decide)⟩

/-- Popping behaviour of one `undo` away from the stack floor: with at
least two entries and no restore in flight, `undo` drops the top of
`undoStack` and finishes with the restoring flag down. -/
theorem undo_pop {α : Type} (ok : α → Bool) (hm : HM α)
    (h2 : 2 ≤ hm.undoStack.length) (hr : hm.isRestoring = false) :
    (undo ok hm).undoStack = hm.undoStack.dropLast ∧
    (undo ok hm).isRestoring = false := by
  have hguard : (hm.undoStack.length ≤ 1 || hm.isRestoring) = false := by
    rw [hr]
    simp
    omega
  have hne : hm.undoStack ≠ [] := by
    intro h
    rw [h] at h2
    simp at h2
  obtain ⟨current, hcur⟩ := Option.isSome_iff_exists.mp (List.getLast?_isSome.mpr hne)
  have hne2 : hm.undoStack.dropLast ≠ [] := by
    intro h
    have := congrArg List.length h
    rw [List.length_dropLast] at this
    simp at this
    omega
  obtain ⟨previous, hprev⟩ :=
    Option.isSome_iff_exists.mp (List.getLast?_isSome.mpr hne2)
  simp only [undo, hguard, Bool.false_eq_true, if_false, hcur, hprev,
    restoreState_eq]
  exact ⟨trivial, trivial⟩

/-- Iterating `k` undos on a stack of more than `k` entries leave exactly the first
`length − k` entries, with the restoring flag down. -/
theorem undoMany_take {α : Type} (ok : α → Bool) :
    ∀ (k : ℕ) (hm : HM α), hm.isRestoring = false →
      k + 1 ≤ hm.undoStack.length →
      (undoMany ok k hm).undoStack =
        hm.undoStack.take (hm.undoStack.length - k) ∧
      (undoMany ok k hm).isRestoring = false := by
  intro k
  induction k with
  | zero =>
    intro hm hr _
    simpa [undoMany] using hr
  | succ k ih =>
    intro hm hr hlen
    have hpop := undo_pop ok hm (by omega) hr
    have hlen2 : k + 1 ≤ (undo ok hm).undoStack.length := by
      rw [hpop.1, List.length_dropLast]
      omega
    have H := ih (undo ok hm) hpop.2 hlen2
    have hres : undoMany ok (k + 1) hm = undoMany ok k (undo ok hm) := rfl
    rw [hres]
    refine ⟨?_, H.2⟩
    rw [H.1, hpop.1, List.length_dropLast, List.dropLast_eq_take, List.take_take,
      min_eq_left (by omega : hm.undoStack.length - 1 - k ≤ hm.undoStack.length - 1)]
    congr 1
    omega

/-- Committing a run of snapshots, each distinct from the stack top it
meets, onto a non-full stack simply appends the run, leaving the flags
down and `maxStates` unchanged. -/
theorem commitMany_append {α : Type} [DecidableEq α] :
    ∀ (L : List α) (hm : HM α), hm.isRestoring = false → hm.isSaving = false →
      hm.undoStack ≠ [] →
      hm.undoStack.length + L.length ≤ hm.maxStates →
      (∀ x, hm.undoStack.getLast? = some x → List.Chain (fun a b => a ≠ b) x L) →
      (commitMany hm L).undoStack = hm.undoStack ++ L ∧
      (commitMany hm L).isRestoring = false ∧
      (commitMany hm L).isSaving = false ∧
      (commitMany hm L).maxStates = hm.maxStates := by
  intro L
  induction L with
  | nil =>
    intro hm hr hs _ _ _
    exact ⟨by simp [commitMany], hr, hs, rfl⟩
  | cons a L ih =>
    intro hm hr hs hne hcap hchain
    obtain ⟨x, hx⟩ := Option.isSome_iff_exists.mp (List.getLast?_isSome.mpr hne)
    have hxa : x ≠ a := (List.chain_cons.mp (hchain x hx)).1
    have hcap2 : hm.undoStack.length + (L.length + 1) ≤ hm.maxStates := by
      simpa using hcap
    have hstep : _doSaveState hm a =
        { hm with undoStack := hm.undoStack ++ [a], redoStack := [] } := by
      simp only [_doSaveState, hr, hs, Bool.or_self, Bool.false_eq_true,
        if_false, hx]
      rw [if_neg (by simp [hxa]), if_neg (by simp; omega)]
    have hres : commitMany hm (a :: L) = commitMany (_doSaveState hm a) L := rfl
    rw [hres, hstep]
    have H := ih { hm with undoStack := hm.undoStack ++ [a], redoStack := [] }
      hr hs (by simp) (by simp; omega)
      (by
        intro y hy
        rw [List.getLast?_concat] at hy
        cases hy
        exact (List.chain_cons.mp (hchain x hx)).2)
    rw [H.1]
    exact ⟨by simp, H.2⟩

set_option maxRecDepth 4000 in
/-- C2 counterexample: with the default configuration `maxStates = 50` and
initial stack `[0]`, 50 commits of the pairwise-distinct snapshots
`1, …, 50` followed by 50 undos do not return to the initial snapshot
`0`: the first commit past capacity evicted it, and the round trip ends
at snapshot `1`. -/
theorem commit_undo_roundtrip_fails_at_capacity :
    (0 :: List.range' 1 50).Nodup ∧
    (List.range' 1 50).length = 50 ∧
    currentSnapshot (⟨50, [0], [], false, false⟩ : HM ℕ) = some 0 ∧
    currentSnapshot (undoMany (fun _ => true) 50
      (commitMany (⟨50, [0], [], false, false⟩ : HM ℕ) (List.range' 1 50)))
      ≠ some 0 := by
  refine ⟨by decide, by decide, rfl, by decide⟩

/-- C2 (amended): as long as the commits fit under the bound
(`N + 1 ≤ maxStates`, so the initial snapshot is never evicted), any `N`
commits of snapshots each distinct from their predecessor followed by `N`
undos leave the initial snapshot current again. -/
theorem commit_undo_roundtrip_within_capacity {α : Type} [DecidableEq α]
    (maxStates : ℕ) (s0 : α) (L : List α) (r : List α)
    (hcap : L.length + 1 ≤ maxStates)
    (hdist : List.Chain (fun a b => a ≠ b) s0 L) :
    currentSnapshot (undoMany (fun _ => true) L.length
      (commitMany (⟨maxStates, [s0], r, false, false⟩ : HM α) L)) = some s0 := by
  have hc := commitMany_append L (⟨maxStates, [s0], r, false, false⟩ : HM α)
    rfl rfl (by simp) (by simp; omega)
    (by
      intro x hx
      simp at hx
      cases hx
      exact hdist)
  have hu := undoMany_take (fun _ => true) L.length
    (commitMany (⟨maxStates, [s0], r, false, false⟩ : HM α) L)
    hc.2.1 (by rw [hc.1]; simp)
  rw [currentSnapshot, hu.1, hc.1]
  simp

/-- C2 witness: the amended round trip evaluated at `maxStates = 3` with
initial snapshot `0` and the two distinct commits `[1, 2]`. -/
theorem commit_undo_roundtrip_within_capacity_witness :
    (([1, 2] : List ℕ).length + 1 ≤ 3 ∧
      List.Chain (fun a b : ℕ => a ≠ b) 0 [1, 2]) ∧
    currentSnapshot (undoMany (fun _ => true) ([1, 2] : List ℕ).length
      (commitMany (⟨3, [0], [], false, false⟩ : HM ℕ) [1, 2])) = some 0 :=
  ⟨⟨by decide, by simp [List.chain_cons]⟩,
    commit_undo_roundtrip_within_capacity 3 0 [1, 2] [] (by decide)
      (by simp [List.chain_cons])⟩

/-- Unfolding equation for `removeWithCascade`. -/
theorem removeWithCascade_eq (partner : Nat → Option Nat)
    (canvas : List Nat) (o : Nat) :
    removeWithCascade partner canvas o =
      if o ∈ canvas then
        match partner o with
        | none => canvas.erase o
        | some p =>
          if p ∈ canvas.erase o then removeWithCascade partner (canvas.erase o) p
          else canvas.erase o
      else canvas := by
  rw [removeWithCascade]
  by_cases h : o ∈ canvas <;> simp [h]

/-- Removing one member of a mutually referenced pair removes exactly the
two members: the container's `removed` handler deletes the text (or vice
versa), whose own handler then finds its partner already gone. -/
theorem removeWithCascade_pair (partner : Nat → Option Nat)
    (canvas : List Nat) (o p : Nat)
    (hop : partner o = some p) (hpo : partner p = some o) (hne : o ≠ p)
    (ho : o ∈ canvas) (hp : p ∈ canvas) (hnd : canvas.Nodup) :
    removeWithCascade partner canvas o = (canvas.erase o).erase p := by
  have hp1 : p ∈ canvas.erase o := (List.mem_erase_of_ne (Ne.symm hne)).mpr hp
  have ho1 : o ∉ canvas.erase o := by
    intro hmem
    exact (hnd.mem_erase_iff.mp hmem).1 rfl
  have ho2 : o ∉ (canvas.erase o).erase p := fun hmem =>
    ho1 (List.mem_of_mem_erase hmem)
  rw [removeWithCascade_eq, if_pos ho]
  simp only [hop]
  rw [if_pos hp1, removeWithCascade_eq, if_pos hp1]
  simp only [hpo]
  rw [if_neg ho2]

/-- C10: for a bound pair both of whose members are on the canvas, removing
one member triggers the mutually-recursive `removed` handlers of both
members, and the cascade terminates having removed exactly the two pair
members (each handler removes its partner only if the canvas still
contains it, and the second handler finds its partner already gone). -/
theorem cascade_removes_exactly_the_pair (partner : Nat → Option Nat)
    (canvas : List Nat) (o p : Nat)
    (hop : partner o = some p) (hpo : partner p = some o) (hne : o ≠ p)
    (ho : o ∈ canvas) (hp : p ∈ canvas) (hnd : canvas.Nodup) :
    removeWithCascade partner canvas o = (canvas.erase o).erase p :=
  removeWithCascade_pair partner canvas o p hop hpo hne ho hp hnd

/-- C10 witness: the cascade evaluated on the pair 1/2 inside the canvas
`[1, 2, 3]`: deleting 1 leaves exactly `[3]`. -/
theorem cascade_removes_exactly_the_pair_witness :
    pairPartner 1 = some 2 ∧ pairPartner 2 = some 1 ∧ (1 : Nat) ≠ 2 ∧
    removeWithCascade pairPartner [1, 2, 3] 1 =
      (([1, 2, 3] : List Nat).erase 1).erase 2 :=
  ⟨rfl, rfl, by decide,
    cascade_removes_exactly_the_pair pairPartner [1, 2, 3] 1 2 rfl rfl
      (by decide) (by decide) (by decide) (by decide)⟩

/-- The witness pairing is symmetric. -/
theorem pairPartner_sym : ∀ a b, pairPartner a = some b → pairPartner b = some a := by
  intro a b h
  by_cases h1 : a = 1
  · subst h1
    simp only [pairPartner, if_pos rfl] at h
    cases h
    decide
  · by_cases h2 : a = 2
    · subst h2
      simp only [pairPartner] at h
      norm_num at h
      cases h
      decide
    · simp only [pairPartner, if_neg h1, if_neg h2] at h
      cases h

/-- The witness pairing pairs no object with itself. -/
theorem pairPartner_irr : ∀ a, pairPartner a ≠ some a := by
  intro a h
  by_cases h1 : a = 1
  · subst h1
    simp [pairPartner] at h
  · by_cases h2 : a = 2
    · subst h2
      simp [pairPartner] at h
    · simp [pairPartner, h1, h2] at h

/-- Both members of every bound pair of the witness pairing lie on the
witness canvas `[1, 2, 3]`. -/
theorem pairPartner_inv : ∀ a b, pairPartner a = some b →
    (a ∈ ([1, 2, 3] : List Nat) ↔ b ∈ ([1, 2, 3] : List Nat)) := by
  intro a b h
  by_cases h1 : a = 1
  · subst h1
    simp only [pairPartner, if_pos rfl] at h
    cases h
    decide
  · by_cases h2 : a = 2
    · subst h2
      simp only [pairPartner] at h
      norm_num at h
      cases h
      decide
    · simp only [pairPartner, if_neg h1, if_neg h2] at h
      cases h

/-- C4: if before a delete no collection state holds exactly one member of
a bound pair (both-or-neither invariant), then after any cascade delete
returns the invariant still holds: for every bound pair, one member is in
the resulting collection exactly when the other is — no orphaned
half-pair persists. -/
theorem cascade_delete_no_half_pairs (partner : Nat → Option Nat)
    (canvas : List Nat) (o : Nat)
    (hsym : ∀ a b, partner a = some b → partner b = some a)
    (hirr : ∀ a, partner a ≠ some a)
    (hnd : canvas.Nodup)
    (hinv : ∀ a b, partner a = some b → (a ∈ canvas ↔ b ∈ canvas)) :
    ∀ a b, partner a = some b →
      (a ∈ removeWithCascade partner canvas o ↔
       b ∈ removeWithCascade partner canvas o) := by
  intro a b hab
  by_cases ho : o ∈ canvas
  · cases hpo : partner o with
    | none =>
      rw [removeWithCascade_eq, if_pos ho]
      simp only [hpo]
      have ha : a ≠ o := by
        intro h
        rw [h, hpo] at hab
        cases hab
      have hb : b ≠ o := by
        intro h
        have h2 := hsym a b hab
        rw [h, hpo] at h2
        cases h2
      rw [List.mem_erase_of_ne ha, List.mem_erase_of_ne hb]
      exact hinv a b hab
    | some p =>
      have hne : o ≠ p := by
        intro h
        exact hirr o (h ▸ hpo)
      have hpmem : p ∈ canvas := (hinv o p hpo).mp ho
      rw [removeWithCascade_pair partner canvas o p hpo (hsym o p hpo) hne ho hpmem hnd]
      have hono : o ∉ canvas.erase o := by
        intro hm
        exact (hnd.mem_erase_iff.mp hm).1 rfl
      have honoe : o ∉ (canvas.erase o).erase p := fun hm =>
        hono (List.mem_of_mem_erase hm)
      have hpnp : p ∉ (canvas.erase o).erase p := by
        intro hm
        exact (((hnd.erase o).mem_erase_iff).mp hm).1 rfl
      by_cases hao : a = o
      · subst hao
        have hbp : b = p := by
          have := hab.symm.trans hpo
          injection this
        subst hbp
        exact iff_of_false honoe hpnp
      · by_cases hap : a = p
        · subst hap
          have hbo : b = o := by
            have := hab.symm.trans (hsym o a hpo)
            injection this
          subst hbo
          exact iff_of_false hpnp honoe
        · have hbo : b ≠ o := by
            rintro rfl
            have h1 := hsym a b hab
            have : a = p := by
              have := h1.symm.trans hpo
              injection this
            exact hap this
          have hbp : b ≠ p := by
            rintro rfl
            have h1 := hsym a b hab
            have : a = o := by
              have := h1.symm.trans (hsym o b hpo)
              injection this
            exact hao this
          rw [List.mem_erase_of_ne hap, List.mem_erase_of_ne hao,
            List.mem_erase_of_ne hbp, List.mem_erase_of_ne hbo]
          exact hinv a b hab
  · rw [removeWithCascade_eq, if_neg ho]
    exact hinv a b hab

/-- C4 witness: the invariant preservation evaluated on the pair 1/2 inside
the canvas `[1, 2, 3]` when 1 is deleted. -/
theorem cascade_delete_no_half_pairs_witness :
    pairPartner 1 = some 2 ∧
    (∀ a b, pairPartner a = some b →
      (a ∈ removeWithCascade pairPartner [1, 2, 3] 1 ↔
       b ∈ removeWithCascade pairPartner [1, 2, 3] 1)) :=
  ⟨rfl, cascade_delete_no_half_pairs pairPartner [1, 2, 3] 1
    pairPartner_sym pairPartner_irr (by decide) pairPartner_inv⟩

/-- An indexed object drawn from an indexed collection is an object of the
collection. -/
theorem snd_mem_of_mem_withIndices :
    ∀ (n : Nat) (objs : List RObj) (p : Nat × RObj),
      p ∈ withIndices n objs → p.2 ∈ objs := by
  intro n objs
  induction objs generalizing n with
  | nil =>
    intro p h
    simp [withIndices] at h
  | cons o rest ih =>
    intro p h
    simp only [withIndices] at h
    rcases List.mem_cons.mp h with h1 | h1
    · subst h1
      exact List.mem_cons_self _ _
    · exact List.mem_cons_of_mem _ (ih (n + 1) p h1)

/-- Availability is monotone in the claimed set: available after a further
claim means available before it. -/
theorem availText_of_cons {j : Nat} {claimed : List Nat} {it : Nat × RObj}
    (h : availText (j :: claimed) it) : availText claimed it := by
  simp only [availText] at h ⊢
  simp at h ⊢
  exact ⟨h.1, h.2.2⟩

/-- An available text is not in the claimed set. -/
theorem availText_not_claimed {claimed : List Nat} {it : Nat × RObj}
    (h : availText claimed it) : it.1 ∉ claimed := by
  simp only [availText] at h
  simp at h
  exact h.2

/-- Availability from its two components. -/
theorem availText_intro {claimed : List Nat} {it : Nat × RObj}
    (hb : alreadyBound it.2 = false) (hc : it.1 ∉ claimed) :
    availText claimed it := by
  simp only [availText]
  simp [hb, hc]

/-- Invariant of the `closestText`/`minDistance` scan: whenever the fold
returns a candidate, it is either the running best or an available element
of the scanned list, it is no farther from the shape than any available
scanned element, and no farther than the running best. -/
theorem closest_foldl_spec (shape : RObj) (claimed : List Nat) :
    ∀ (ts : List (Nat × RObj)) (best : Option (Nat × RObj)) (jt : Nat × RObj),
      ts.foldl (closestStep shape claimed) best = some jt →
      ((jt ∈ ts ∧ availText claimed jt) ∨ best = some jt) ∧
      (∀ it ∈ ts, availText claimed it → dist2 shape jt.2 ≤ dist2 shape it.2) ∧
      (∀ b, best = some b → dist2 shape jt.2 ≤ dist2 shape b.2) := by
  intro ts
  induction ts with
  | nil =>
    intro best jt h
    simp only [List.foldl_nil] at h
    refine ⟨Or.inr h, by simp, fun b hb => ?_⟩
    rw [h] at hb
    injection hb with e
    rw [← e]
  | cons it0 rest ih =>
    intro best jt h
    rw [List.foldl_cons] at h
    have H := ih (closestStep shape claimed best it0) jt h
    by_cases hg : (alreadyBound it0.2 || claimed.contains it0.1) = true
    · have hstep : closestStep shape claimed best it0 = best := by
        unfold closestStep
        rw [if_pos hg]
      rw [hstep] at H
      refine ⟨?_, ?_, H.2.2⟩
      · rcases H.1 with ⟨hm, hav⟩ | hb
        · exact Or.inl ⟨List.mem_cons_of_mem _ hm, hav⟩
        · exact Or.inr hb
      · intro x hx hav
        rcases List.mem_cons.mp hx with h1 | h1
        · subst h1
          exact absurd hg (by simpa [availText] using hav)
        · exact H.2.1 x h1 hav
    · have hg' : (alreadyBound it0.2 || claimed.contains it0.1) = false := by
        simpa using hg
      have hav0 : availText claimed it0 := hg'
      cases hbest : best with
      | none =>
        have hstep : closestStep shape claimed best it0 = some it0 := by
          unfold closestStep
          rw [if_neg (by rw [hg']; simp), hbest]
        rw [hstep] at H
        refine ⟨?_, ?_, ?_⟩
        · rcases H.1 with ⟨hm, hav⟩ | hb
          · exact Or.inl ⟨List.mem_cons_of_mem _ hm, hav⟩
          · injection hb with e
            exact Or.inl ⟨by rw [← e]; exact List.mem_cons_self _ _,
              by rw [← e]; exact hav0⟩
        · intro x hx hav
          rcases List.mem_cons.mp hx with h1 | h1
          · subst h1
            exact H.2.2 _ rfl
          · exact H.2.1 x h1 hav
        · intro b hb
          exact Option.noConfusion hb
      | some b0 =>
        by_cases hd : dist2 shape it0.2 < dist2 shape b0.2
        · have hstep : closestStep shape claimed best it0 = some it0 := by
            unfold closestStep
            rw [if_neg (by rw [hg']; simp), hbest]
            exact if_pos hd
          rw [hstep] at H
          refine ⟨?_, ?_, ?_⟩
          · rcases H.1 with ⟨hm, hav⟩ | hb
            · exact Or.inl ⟨List.mem_cons_of_mem _ hm, hav⟩
            · injection hb with e
              exact Or.inl ⟨by rw [← e]; exact List.mem_cons_self _ _,
                by rw [← e]; exact hav0⟩
          · intro x hx hav
            rcases List.mem_cons.mp hx with h1 | h1
            · subst h1
              exact H.2.2 _ rfl
            · exact H.2.1 x h1 hav
          · intro b hb
            injection hb with e
            rw [← e]
            exact (H.2.2 it0 rfl).trans (le_of_lt hd)
        · have hstep : closestStep shape claimed best it0 = some b0 := by
            unfold closestStep
            rw [if_neg (by rw [hg']; simp), hbest]
            exact if_neg hd
          rw [hstep] at H
          refine ⟨?_, ?_, ?_⟩
          · rcases H.1 with ⟨hm, hav⟩ | hb
            · exact Or.inl ⟨List.mem_cons_of_mem _ hm, hav⟩
            · exact Or.inr hb
          · intro x hx hav
            rcases List.mem_cons.mp hx with h1 | h1
            · subst h1
              exact (H.2.2 b0 rfl).trans (not_lt.mp hd)
            · exact H.2.1 x h1 hav
          · intro b hb
            injection hb with e
            rw [← e]
            exact H.2.2 b0 rfl

/-- Specification of the inner loop `closestUnclaimed`: a returned text is
an available element of the text partition at minimal squared distance
among the available texts (ties going to the first encountered, which the
strict `<` update preserves). -/
theorem closestUnclaimed_spec (shape : RObj) (texts : List (Nat × RObj))
    (claimed : List Nat) (jt : Nat × RObj)
    (h : closestUnclaimed shape texts claimed = some jt) :
    jt ∈ texts ∧ availText claimed jt ∧
    ∀ it ∈ texts, availText claimed it →
      dist2 shape jt.2 ≤ dist2 shape it.2 := by
  have H := closest_foldl_spec shape claimed texts none jt h
  rcases H.1 with ⟨hm, hav⟩ | hb
  · exact ⟨hm, hav, H.2.1⟩
  · exact Option.noConfusion hb

/-- Every pair emitted by the outer relink loop consists of a scanned shape
and an available text. -/
theorem relinkAux_mem (texts : List (Nat × RObj)) :
    ∀ (shapes : List (Nat × RObj)) (claimed : List Nat)
      (q : (Nat × RObj) × (Nat × RObj)),
      q ∈ relinkAux texts shapes claimed →
      q.1 ∈ shapes ∧ q.2 ∈ texts ∧ availText claimed q.2 := by
  intro shapes
  induction shapes with
  | nil =>
    intro claimed q hq
    simp [relinkAux] at hq
  | cons st rest ih =>
    intro claimed q hq
    simp only [relinkAux] at hq
    cases hcl : closestUnclaimed st.2 texts claimed with
    | none =>
      rw [hcl] at hq
      have H := ih claimed q hq
      exact ⟨List.mem_cons_of_mem _ H.1, H.2.1, H.2.2⟩
    | some jt =>
      rw [hcl] at hq
      rcases List.mem_cons.mp hq with h1 | h1
      · subst h1
        have hs := closestUnclaimed_spec st.2 texts claimed jt hcl
        exact ⟨List.mem_cons_self _ _, hs.1, hs.2.1⟩
      · have H := ih (jt.1 :: claimed) q h1
        exact ⟨List.mem_cons_of_mem _ H.1, H.2.1, availText_of_cons H.2.2⟩

/-- The container components of the emitted pairs form a subsequence of the
container partition: containers are served in encounter order and each is
bound at most once. -/
theorem relinkAux_sublist (texts : List (Nat × RObj)) :
    ∀ (shapes : List (Nat × RObj)) (claimed : List Nat),
      ((relinkAux texts shapes claimed).map (fun q => q.1)).Sublist shapes := by
  intro shapes
  induction shapes with
  | nil =>
    intro claimed
    simp [relinkAux]
  | cons st rest ih =>
    intro claimed
    simp only [relinkAux]
    cases hcl : closestUnclaimed st.2 texts claimed with
    | none => exact (ih claimed).cons st
    | some jt =>
      simp only [List.map_cons]
      exact (ih (jt.1 :: claimed)).cons₂ st

/-- The text components of the emitted pairs are pairwise distinct and
none of them was claimed before the loop started. -/
theorem relinkAux_texts_nodup (texts : List (Nat × RObj)) :
    ∀ (shapes : List (Nat × RObj)) (claimed : List Nat),
      ((relinkAux texts shapes claimed).map (fun q => q.2.1)).Nodup ∧
      ∀ x ∈ (relinkAux texts shapes claimed).map (fun q => q.2.1),
        x ∉ claimed := by
  intro shapes
  induction shapes with
  | nil =>
    intro claimed
    simp [relinkAux]
  | cons st rest ih =>
    intro claimed
    simp only [relinkAux]
    cases hcl : closestUnclaimed st.2 texts claimed with
    | none => exact ih claimed
    | some jt =>
      have H := ih (jt.1 :: claimed)
      have hs := closestUnclaimed_spec st.2 texts claimed jt hcl
      simp only [List.map_cons]
      constructor
      · refine List.nodup_cons.mpr ⟨?_, H.1⟩
        intro hm
        exact H.2 jt.1 hm (List.mem_cons_self _ _)
      · intro x hx
        rcases List.mem_cons.mp hx with h1 | h1
        · subst h1
          exact availText_not_claimed hs.2.1
        · intro hxc
          exact H.2 x h1 (List.mem_cons_of_mem _ hxc)

/-- Minimality of each emitted pair: the text bound to the `k`-th served
container is no farther from it (in squared distance) than any text of
the partition that is unbound, unclaimed before the loop, and not claimed
by one of the first `k` pairs. -/
theorem relinkAux_min (texts : List (Nat × RObj)) :
    ∀ (shapes : List (Nat × RObj)) (claimed : List Nat) (k : Nat)
      (hk : k < (relinkAux texts shapes claimed).length),
      ∀ it ∈ texts, alreadyBound it.2 = false → it.1 ∉ claimed →
        it.1 ∉ ((relinkAux texts shapes claimed).take k).map (fun q => q.2.1) →
        dist2 ((relinkAux texts shapes claimed).get ⟨k, hk⟩).1.2
            ((relinkAux texts shapes claimed).get ⟨k, hk⟩).2.2 ≤
          dist2 ((relinkAux texts shapes claimed).get ⟨k, hk⟩).1.2 it.2 := by
  intro shapes
  induction shapes with
  | nil =>
    intro claimed k hk
    simp [relinkAux] at hk
  | cons st rest ih =>
    intro claimed k
    simp only [relinkAux]
    cases hcl : closestUnclaimed st.2 texts claimed with
    | none =>
      intro hk it hmem hb hc hp
      exact ih claimed k hk it hmem hb hc hp
    | some jt =>
      cases k with
      | zero =>
        intro hk it hmem hb hc _
        have hs := closestUnclaimed_spec st.2 texts claimed jt hcl
        exact hs.2.2 it hmem (availText_intro hb hc)
      | succ k =>
        intro hk it hmem hb hc hp
        have hne : it.1 ≠ jt.1 := by
          intro he
          exact hp (by simp [List.take_succ_cons, he])
        have hp2 : it.1 ∉
            ((relinkAux texts rest (jt.1 :: claimed)).take k).map
              (fun q => q.2.1) := by
          intro hm
          have hm2 : it.1 ∈
              (List.map (fun q => q.2.1)
                (relinkAux texts rest (jt.1 :: claimed))).take k := by
            rw [← List.map_take]
            exact hm
          exact hp (by simp [List.take_succ_cons]; exact Or.inr hm2)
        have hc2 : it.1 ∉ jt.1 :: claimed := by
          intro hm
          rcases List.mem_cons.mp hm with h1 | h1
          · exact hne h1
          · exact hc h1
        exact ih (jt.1 :: claimed) k (by simpa using hk) it hmem hb hc2 hp2

/-- When the inner scan returns no candidate, the running best was empty
and no scanned text was available. -/
theorem closest_foldl_none (shape : RObj) (claimed : List Nat) :
    ∀ (ts : List (Nat × RObj)) (best : Option (Nat × RObj)),
      ts.foldl (closestStep shape claimed) best = none →
      best = none ∧ ∀ it ∈ ts, ¬ availText claimed it := by
  intro ts
  induction ts with
  | nil =>
    intro best h
    simp only [List.foldl_nil] at h
    exact ⟨h, by simp⟩
  | cons it0 rest ih =>
    intro best h
    rw [List.foldl_cons] at h
    have H := ih (closestStep shape claimed best it0) h
    by_cases hg : (alreadyBound it0.2 || claimed.contains it0.1) = true
    · have hstep : closestStep shape claimed best it0 = best := by
        unfold closestStep
        rw [if_pos hg]
      rw [hstep] at H
      refine ⟨H.1, ?_⟩
      intro x hx
      rcases List.mem_cons.mp hx with h1 | h1
      · subst h1
        intro hav
        exact absurd hg (by simpa [availText] using hav)
      · exact H.2 x h1
    · exfalso
      have hg' : (alreadyBound it0.2 || claimed.contains it0.1) = false := by
        simpa using hg
      have hsome : ∃ r, closestStep shape claimed best it0 = some r := by
        unfold closestStep
        rw [if_neg (by rw [hg']; simp)]
        cases best with
        | none => exact ⟨it0, rfl⟩
        | some b0 =>
          by_cases hd : dist2 shape it0.2 < dist2 shape b0.2
          · exact ⟨it0, if_pos hd⟩
          · exact ⟨b0, if_neg hd⟩
      obtain ⟨r, hr⟩ := hsome
      rw [hr] at H
      exact Option.noConfusion H.1

/-- If `closestUnclaimed` finds nothing, no text of the partition was
available: every candidate was flagged bound or already claimed. -/
theorem closestUnclaimed_none (shape : RObj) (texts : List (Nat × RObj))
    (claimed : List Nat)
    (h : closestUnclaimed shape texts claimed = none) :
    ∀ it ∈ texts, ¬ availText claimed it :=
  (closest_foldl_none shape claimed texts none h).2

/-- Claiming one present, previously unclaimed text shrinks the available
part of a duplicate-free text partition by exactly one element. -/
theorem filter_uncons_claim (claimed : List Nat) (jt : Nat × RObj) :
    ∀ texts : List (Nat × RObj),
      (texts.map (fun it => it.1)).Nodup → jt ∈ texts → jt.1 ∉ claimed →
      (texts.filter (fun it => !((jt.1 :: claimed).contains it.1))).length + 1 =
        (texts.filter (fun it => !(claimed.contains it.1))).length := by
  intro texts
  induction texts with
  | nil =>
    intro _ hjt _
    cases hjt
  | cons a ts ih =>
    intro hnd hjt hjc
    simp only [List.map_cons] at hnd
    have hnd1 : a.1 ∉ ts.map (fun it => it.1) := (List.nodup_cons.mp hnd).1
    have hnd2 : (ts.map (fun it => it.1)).Nodup := (List.nodup_cons.mp hnd).2
    rcases List.mem_cons.mp hjt with h1 | h1
    · subst h1
      have hcong : ts.filter (fun it => !((jt.1 :: claimed).contains it.1)) =
          ts.filter (fun it => !(claimed.contains it.1)) := by
        apply List.filter_congr
        intro it hit
        have hne : it.1 ≠ jt.1 := by
          intro he
          exact hnd1 (he ▸ List.mem_map_of_mem (fun it => it.1) hit)
        simp [List.contains_cons, hne]
      rw [List.filter_cons, List.filter_cons, hcong]
      rw [if_neg (by simp), if_pos (by simp [hjc])]
      simp
    · have haj : a.1 ≠ jt.1 := by
        intro he
        exact hnd1 (he ▸ List.mem_map_of_mem (fun it => it.1) h1)
      have hpp : (!((jt.1 :: claimed).contains a.1)) =
          (!(claimed.contains a.1)) := by
        simp [List.contains_cons, haj]
      rw [List.filter_cons, List.filter_cons, hpp]
      have IH := ih hnd2 h1 hjc
      by_cases hpa : (!(claimed.contains a.1)) = true
      · rw [if_pos hpa, if_pos hpa]
        simp only [List.length_cons]
        omega
      · rw [if_neg hpa, if_neg hpa]
        exact IH

/-- The encounter-order positions attached by `withIndices` are the
consecutive naturals from the start index. -/
theorem withIndices_map_fst : ∀ (n : Nat) (objs : List RObj),
    (withIndices n objs).map (fun p => p.1) = List.range' n objs.length := by
  intro n objs
  induction objs generalizing n with
  | nil => simp [withIndices]
  | cons o rest ih =>
    simp only [withIndices, List.map_cons, List.length_cons, List.range'_succ]
    rw [ih (n + 1)]

/-- The text partition carries pairwise distinct positions. -/
theorem shapeTextsOf_fst_nodup (objs : List RObj) :
    ((shapeTextsOf objs).map (fun it => it.1)).Nodup := by
  have h2 : ((shapeTextsOf objs).map (fun it => it.1)).Sublist
      ((withIndices 0 objs).map (fun p => p.1)) :=
    (List.filter_sublist _).map (fun it : Nat × RObj => it.1)
  have h3 : ((withIndices 0 objs).map (fun p => p.1)).Nodup := by
    rw [withIndices_map_fst]
    exact List.nodup_range' 0 objs.length
  exact h3.sublist h2

/-- Completeness of the outer relink loop: with every text of a
duplicate-free partition unflagged, the containers actually bound are
exactly the first served containers, as many as there are texts not yet
claimed — a container goes unbound only once every text is claimed. -/
theorem relinkAux_complete (texts : List (Nat × RObj))
    (hnd : (texts.map (fun it => it.1)).Nodup)
    (hfreshT : ∀ it ∈ texts, alreadyBound it.2 = false) :
    ∀ (shapes : List (Nat × RObj)) (claimed : List Nat),
      (relinkAux texts shapes claimed).map (fun q => q.1) =
        shapes.take
          ((texts.filter (fun it => !(claimed.contains it.1))).length) := by
  intro shapes
  induction shapes with
  | nil =>
    intro claimed
    simp [relinkAux]
  | cons st rest ih =>
    intro claimed
    simp only [relinkAux]
    cases hcl : closestUnclaimed st.2 texts claimed with
    | none =>
      have hnone := closestUnclaimed_none st.2 texts claimed hcl
      have hfil : texts.filter (fun it => !(claimed.contains it.1)) = [] := by
        rw [List.filter_eq_nil_iff]
        intro it hit
        have hni := hnone it hit
        have hfr := hfreshT it hit
        simp [availText, hfr] at hni
        simp [hni]
      rw [ih claimed, hfil]
      simp
    | some jt =>
      have hs := closestUnclaimed_spec st.2 texts claimed jt hcl
      have hjc : jt.1 ∉ claimed := availText_not_claimed hs.2.1
      have hcount := filter_uncons_claim claimed jt texts hnd hs.1 hjc
      simp only [List.map_cons]
      rw [ih (jt.1 :: claimed), ← hcount, List.take_succ_cons]

/-- C1: on a freshly restored collection (no binding flags survive
serialization), `restoreBubbleTextBindings` partitions the objects into
containers (`bubble`/`rect`/`circle`/`triangle` tags) and bound texts
(`bubbleText`/`shapeText` tags) and, serving containers in encounter
order, binds each to a not-yet-claimed text at minimum Euclidean distance
between centres: every emitted pair joins a container of the partition to
a text of the partition, the container components respect encounter order
with no container bound twice, no text is bound to more than one
container, and the `k`-th bound text is at least as close to its
container as every text still unclaimed at that point.  Moreover the
binding is complete: the bound containers are exactly the first
`min(#containers, #texts)` containers in encounter order — every
container is bound while an unclaimed text remains, and a container or
text goes unbound only when the other partition is exhausted. -/
theorem restoreBubbleTextBindings_binds_nearest (objs : List RObj)
    (hfresh : ∀ o ∈ objs, o.boundBubble = false ∧ o.boundShape = false) :
    (∀ q ∈ restoreBubbleTextBindings objs,
      q.1 ∈ bindableShapesOf objs ∧ q.2 ∈ shapeTextsOf objs) ∧
    ((restoreBubbleTextBindings objs).map (fun q => q.1)).Sublist
      (bindableShapesOf objs) ∧
    ((restoreBubbleTextBindings objs).map (fun q => q.2.1)).Nodup ∧
    ((restoreBubbleTextBindings objs).map (fun q => q.1) =
      (bindableShapesOf objs).take ((shapeTextsOf objs).length)) ∧
    ((restoreBubbleTextBindings objs).length =
      min (bindableShapesOf objs).length (shapeTextsOf objs).length) ∧
    (∀ (k : Nat) (hk : k < (restoreBubbleTextBindings objs).length),
      ∀ it ∈ shapeTextsOf objs,
        it.1 ∉ ((restoreBubbleTextBindings objs).take k).map (fun q => q.2.1) →
        Real.sqrt ((dist2 ((restoreBubbleTextBindings objs).get ⟨k, hk⟩).1.2
            ((restoreBubbleTextBindings objs).get ⟨k, hk⟩).2.2 : ℚ) : ℝ) ≤
        Real.sqrt ((dist2 ((restoreBubbleTextBindings objs).get ⟨k, hk⟩).1.2
            it.2 : ℚ) : ℝ)) := by
  have hfresh2 : ∀ it ∈ shapeTextsOf objs, alreadyBound it.2 = false := by
    intro it hit
    have hmem : it.2 ∈ objs :=
      snd_mem_of_mem_withIndices 0 objs it (List.mem_of_mem_filter hit)
    have hflags := hfresh it.2 hmem
    simp [alreadyBound, hflags.1, hflags.2]
  have hcomp := relinkAux_complete (shapeTextsOf objs)
    (shapeTextsOf_fst_nodup objs) hfresh2 (bindableShapesOf objs) []
  have hfil : (shapeTextsOf objs).filter
      (fun it => !(([] : List Nat).contains it.1)) = shapeTextsOf objs := by
    simp
  rw [hfil] at hcomp
  have hlen : (restoreBubbleTextBindings objs).length =
      min (bindableShapesOf objs).length (shapeTextsOf objs).length := by
    have h1 := congrArg List.length hcomp
    rw [List.length_map, List.length_take] at h1
    rw [restoreBubbleTextBindings, h1, Nat.min_comm]
  simp only [restoreBubbleTextBindings]
  refine ⟨?_, relinkAux_sublist _ _ _, (relinkAux_texts_nodup _ _ _).1,
    hcomp, ?_, ?_⟩
  · intro q hq
    have H := relinkAux_mem (shapeTextsOf objs) (bindableShapesOf objs) [] q hq
    exact ⟨H.1, H.2.1⟩
  · rw [← restoreBubbleTextBindings]
    exact hlen
  · intro k hk it hit hp
    have hmin := relinkAux_min (shapeTextsOf objs) (bindableShapesOf objs) []
      k hk it hit (hfresh2 it hit) (by simp) hp
    exact Real.sqrt_le_sqrt (by exact_mod_cast hmin)

/-- C1 witness: the relink specification evaluated on a concrete restored
collection with a rect, a bubble and their two nearby texts; the pass
really forms pairs — both partitions have two members, so by the
completeness conjunct exactly two pairs are emitted and the bound
containers are the rect at position 0 and the bubble at position 2. -/
theorem restoreBubbleTextBindings_binds_nearest_witness :
    (∀ o ∈ relinkWitnessObjs, o.boundBubble = false ∧ o.boundShape = false) ∧
    ((∀ q ∈ restoreBubbleTextBindings relinkWitnessObjs,
      q.1 ∈ bindableShapesOf relinkWitnessObjs ∧
      q.2 ∈ shapeTextsOf relinkWitnessObjs) ∧
    ((restoreBubbleTextBindings relinkWitnessObjs).map (fun q => q.1)).Sublist
      (bindableShapesOf relinkWitnessObjs) ∧
    ((restoreBubbleTextBindings relinkWitnessObjs).map
      (fun q => q.2.1)).Nodup ∧
    ((restoreBubbleTextBindings relinkWitnessObjs).map (fun q => q.1) =
      (bindableShapesOf relinkWitnessObjs).take
        ((shapeTextsOf relinkWitnessObjs).length)) ∧
    ((restoreBubbleTextBindings relinkWitnessObjs).length =
      min (bindableShapesOf relinkWitnessObjs).length
        (shapeTextsOf relinkWitnessObjs).length) ∧
    (∀ (k : Nat)
      (hk : k < (restoreBubbleTextBindings relinkWitnessObjs).length),
      ∀ it ∈ shapeTextsOf relinkWitnessObjs,
        it.1 ∉ ((restoreBubbleTextBindings relinkWitnessObjs).take k).map
          (fun q => q.2.1) →
        Real.sqrt
            ((dist2
                ((restoreBubbleTextBindings relinkWitnessObjs).get
                  ⟨k, hk⟩).1.2
                ((restoreBubbleTextBindings relinkWitnessObjs).get
                  ⟨k, hk⟩).2.2 : ℚ) : ℝ) ≤
        Real.sqrt
            ((dist2
                ((restoreBubbleTextBindings relinkWitnessObjs).get
                  ⟨k, hk⟩).1.2 it.2 : ℚ) : ℝ))) ∧
    (bindableShapesOf relinkWitnessObjs).length = 2 ∧
    (shapeTextsOf relinkWitnessObjs).length = 2 ∧
    (restoreBubbleTextBindings relinkWitnessObjs).length = 2 ∧
    (bindableShapesOf relinkWitnessObjs).take
        ((shapeTextsOf relinkWitnessObjs).length) =
      [(0, ⟨"rect", 0, 0, false, false⟩),
       (2, ⟨"bubble", 100, 0, false, false⟩)] :=
  ⟨by decide,
    restoreBubbleTextBindings_binds_nearest relinkWitnessObjs (by decide),
    by decide, by decide,
    by
      rw [(restoreBubbleTextBindings_binds_nearest relinkWitnessObjs
        (by decide)).2.2.2.2.1]
      decide,
    by decide⟩
